import Mathlib

/-!
Verification of the cost model of an automated physical-design advisor for a
sharded document database (file src/costmodel/costmodel.py of the repository).

The cost model is embedded shallowly:

* Python numbers (the module activates true division) become `ℚ`.
* Dictionaries keyed by collection or field names become total functions out
  of `String`; a query predicate dictionary becomes the association list of
  its iteration order.
* The `Design` object is consumed by the cost model only through its methods
  `hasCollection`, `getParentCollection`, `inShardKeyPattern`, `hasIndex`,
  `getCollections` and `getIndexesForCollection`; it is embedded as a record
  of those six operations (the class itself is outside the provided sources,
  its interface follows the specification, section 4.2).
* The PRNG `self.rg` is seeded once in the constructor.  Its stream of draws
  is abstracted as a function `rg : ℕ → ℕ`, fixed at construction, and the
  mutable position inside it is threaded explicitly through the functions
  that draw from it (`diskCost`, `overallCost`); `randint(1, 100)` reads the
  stream at the current position, mapped into `[1, 100]`, and advances it.
* The division in `overallCost` is unguarded in the source (a zero weight
  sum raises `ZeroDivisionError`), so `overallCost` returns `Option ℚ`:
  `none` stands for the raised error.
-/

/-- Field-level statistics of one collection: the per-field selectivity map
together with the collection counters the cost model reads
(`statistics[col][...]` in the source). -/
structure CollStats where
  tuple_count : ℚ
  avg_doc_size : ℚ
  workload_percent : ℚ
  max_pages : ℚ
  selectivity : String → ℚ

/-- The four query types of the workload model. -/
inductive QueryType where
  | insert
  | update
  | delete
  | select
deriving DecidableEq

/-- One workload query: target collection, operation type and the predicate
dictionary in its iteration order (field name, predicate kind). -/
structure Query where
  collection : String
  type : QueryType
  predicates : List (String × String)

/-- One workload session: the ordered queries plus its time interval. -/
structure Session where
  queries : List Query
  startTime : ℚ
  endTime : ℚ

/-- Modelled from the spec: the `Design` class is not among the provided
source files; the cost model consumes it purely through these operations
(specification section 4.2), so a design is embedded as the record of them. -/
structure Design where
  getCollections : List String
  hasCollection : String → Bool
  getParentCollection : String → Option String
  inShardKeyPattern : String → String → Bool
  hasIndex : String → List String → Bool
  getIndexesForCollection : String → List (List String)

/-- The configuration dictionary consumed by `CostModel.__init__`. -/
structure Config where
  weight_network : ℚ
  weight_disk : ℚ
  weight_skew : ℚ
  nodes : ℕ
  max_memory : ℚ
  address_size : ℚ
  skew_intervals : ℤ

/-- The state of a `CostModel` instance after `__init__`: the workload, the
copied weights, the statistics, the abstracted PRNG stream and the derived
quantities `max_memory`, `skew_segments` and `address_size`. -/
structure CostModel where
  workload : List Session
  weight_network : ℚ
  weight_disk : ℚ
  weight_skew : ℚ
  nodes : ℕ
  stats : String → CollStats
  rg : ℕ → ℕ
  max_memory : ℚ
  skew_segments : ℤ
  address_size : ℚ

/-- Embeds `CostModel.__init__`: weights are copied, `max_memory` is the
configured megabytes times `1024 * 1024 * nodes`, `skew_segments` is
`skew_intervals - 1`, `address_size` is the configured value divided by 4,
and the PRNG is seeded (the Mersenne-Twister stream produced by the fixed
seed string "cost model coolness" is abstracted as `stream`; the position
starts at 0 and is threaded through the drawing functions). -/
def mkCostModel (workload : List Session) (config : Config)
    (statistics : String → CollStats) (stream : ℕ → ℕ) : CostModel :=
  { workload := workload
    weight_network := config.weight_network
    weight_disk := config.weight_disk
    weight_skew := config.weight_skew
    nodes := config.nodes
    stats := statistics
    rg := stream
    max_memory := config.max_memory * 1024 * 1024 * (config.nodes : ℚ)
    skew_segments := config.skew_intervals - 1
    address_size := config.address_size / 4 }

/-- Embeds `CostModel.guessNodes`:
`math.ceil(stats[collection].fields[key].selectivity * nodes)`. -/
def guessNodes (m : CostModel) (_design : Design) (collection : String)
    (key : String) : ℚ :=
  ((⌈(m.stats collection).selectivity key * (m.nodes : ℚ)⌉ : ℤ) : ℚ)

/-- Embeds the predicate loop of `partialNetworkCost`
(`for k, v in q.predicates.iteritems()`): the running state is
`(scan, query_type, k)`; a field in the shard key pattern clears `scan` and
records its kind, and `k` always holds the key seen last. -/
def scanPreds (d : Design) (c : String) :
    List (String × String) → Bool × Option String × String →
    Bool × Option String × String
  | [], st => st
  | kv :: rest, (scan, query_type, _) =>
    if d.inShardKeyPattern c kv.1 then
      scanPreds d c rest (false, some kv.2, kv.1)
    else
      scanPreds d c rest (scan, query_type, kv.1)

/-- Embeds the amount added to `result` for one processed query in
`partialNetworkCost`: 1 for an insert; for a non-empty predicate dictionary,
0 for an equality hit on the shard key, `guessNodes` of the loop variable `k`
for any other hit, `nodes` for a miss; `nodes` for empty predicates. -/
def queryNetResult (m : CostModel) (d : Design) (q : Query) : ℚ :=
  if q.type = QueryType.insert then 1
  else if 0 < q.predicates.length then
    let st := scanPreds d q.collection q.predicates (true, none, "")
    if st.1 = false then
      if st.2.1 = some "equality" then 0
      else guessNodes m d q.collection st.2.2
    else (m.nodes : ℚ)
  else (m.nodes : ℚ)

/-- Embeds the `process` flag of `partialNetworkCost`: a query is processed
when there is no previous query, or its collection is its own parent, or the
two queries are not both selects, or the previous collection is not the
parent (`None` compares unequal to every collection name). -/
def processQ (d : Design) (prev : Option Query) (q : Query) : Bool :=
  match prev with
  | none => true
  | some pq =>
    decide (d.getParentCollection q.collection = some q.collection) ||
    decide (pq.type ≠ QueryType.select) ||
    decide (q.type ≠ QueryType.select) ||
    decide (d.getParentCollection q.collection ≠ some pq.collection)

/-- The three accumulators of `partialNetworkCost`. -/
structure NetAcc where
  worst_case : ℚ
  result : ℚ
  query_count : ℕ
deriving DecidableEq

/-- Embeds one iteration of the query loop of `partialNetworkCost`: a query
whose collection is absent from the design is not counted, a processed query
adds `nodes` to `worst_case`, 1 to `query_count` and `queryNetResult` to
`result`, and `previous_query` is set to the query in every case. -/
def netQueryStep (m : CostModel) (d : Design) (st : NetAcc × Option Query)
    (q : Query) : NetAcc × Option Query :=
  let acc := st.1
  let acc' :=
    if d.hasCollection q.collection then
      if processQ d st.2 q then
        { worst_case := acc.worst_case + (m.nodes : ℚ)
          result := acc.result + queryNetResult m d q
          query_count := acc.query_count + 1 }
      else acc
    else acc
  (acc', some q)

/-- Embeds one iteration of the session loop of `partialNetworkCost`:
`previous_query` restarts at `None` for every session. -/
def netSession (m : CostModel) (d : Design) (acc : NetAcc) (s : Session) :
    NetAcc :=
  (s.queries.foldl (netQueryStep m d) (acc, none)).1

/-- The accumulator state of `partialNetworkCost` after both loops. -/
def netAccOf (m : CostModel) (d : Design) (seg : List Session) : NetAcc :=
  seg.foldl (netSession m d) ⟨0, 0, 0⟩

/-- Embeds `CostModel.partialNetworkCost` on a workload segment: the pair of
the normalized cost `result / worst_case` (0 when `worst_case` is 0) and the
processed query count.  The source also builds `stat_collections =
list(self.stats)` and never reads it, so the dead variable is omitted. -/
def segNetworkCost (m : CostModel) (d : Design) (seg : List Session) :
    ℚ × ℕ :=
  let acc := netAccOf m d seg
  (if acc.worst_case = 0 then 0 else acc.result / acc.worst_case,
   acc.query_count)

/-- Embeds `CostModel.networkCost`: `partialNetworkCost` on the whole
workload, keeping the cost and dropping the query count. -/
def networkCost (m : CostModel) (d : Design) : ℚ :=
  (segNetworkCost m d m.workload).1

/-- Embeds `CostModel.getIndexSize`: for every design collection, the primary
footprint `tuple_count * avg_doc_size` plus, for every index of the design on
it, `tuple_count * address_size * len(index)`. -/
def getIndexSize (m : CostModel) (d : Design) : ℚ :=
  d.getCollections.foldl
    (fun memory col =>
      (d.getIndexesForCollection col).foldl
        (fun mem index =>
          mem + (m.stats col).tuple_count * m.address_size *
            (index.length : ℚ))
        (memory +
          (m.stats col).tuple_count * (m.stats col).avg_doc_size))
    0

/-- Pointwise update of a collection-keyed map, the embedding of one Python
dictionary assignment. -/
def updMap (f : String → ℚ) (key : String) (v : ℚ) : String → ℚ :=
  fun x => if x = key then v else f x

/-- Strict descending comparison used by `sorting_pairs.sort(reverse=True)`:
Python tuples compare lexicographically, first on the workload percentage and
then on the collection name (byte order). -/
def pairLtB (a b : ℚ × String) : Bool :=
  decide (a.1 < b.1) || (decide (a.1 = b.1) && decide (a.2 < b.2))

/-- Descending stable insertion used to embed the sort of `sorting_pairs`:
an element moves before exactly the strictly smaller ones. -/
def insertDesc (x : ℚ × String) : List (ℚ × String) → List (ℚ × String)
  | [] => [x]
  | y :: ys => if pairLtB y x then x :: y :: ys else y :: insertDesc x ys

/-- Embeds `sorting_pairs.sort(reverse=True)`: stable descending sort in the
lexicographic tuple order. -/
def sortPairsDesc : List (ℚ × String) → List (ℚ × String)
  | [] => []
  | x :: xs => insertDesc x (sortPairsDesc xs)

/-- Embeds the first pass of `estimateWorkingSets` over the sorted
(percentage, collection) pairs: a collection whose footprint fits inside
`capacity * percentage` becomes 100 percent resident and its surplus joins
the shared buffer; otherwise its residency is the ceiling of the covered
percentage and the pair joins the need list. -/
def wsFirstPass (m : CostModel) (capacity : ℚ) :
    List (ℚ × String) → (String → ℚ) × ℚ × List (ℚ × String) →
    (String → ℚ) × ℚ × List (ℚ × String)
  | [], st => st
  | pair :: rest, (wsc, buffer, needs) =>
    let memory_available := capacity * pair.1
    let memory_needed :=
      (m.stats pair.2).avg_doc_size * (m.stats pair.2).tuple_count
    if memory_needed ≤ memory_available then
      wsFirstPass m capacity rest
        (updMap wsc pair.2 100, buffer + (memory_available - memory_needed),
         needs)
    else
      let col_percent := memory_available / memory_needed
      wsFirstPass m capacity rest
        (updMap wsc pair.2 ((⌈col_percent * 100⌉ : ℤ) : ℚ), buffer,
         needs ++ [(1 - col_percent, pair.2)])

/-- Embeds the second pass of `estimateWorkingSets` over the need list: the
buffer fully satisfies an entry when it can (and shrinks), otherwise a
positive remaining buffer adds the fraction it covers, scaled by 100. -/
def wsSecondPass (m : CostModel) :
    List (ℚ × String) → (String → ℚ) × ℚ → (String → ℚ) × ℚ
  | [], st => st
  | pair :: rest, (wsc, buffer) =>
    let memory_available := buffer
    let memory_needed :=
      (1 - wsc pair.2 / 100) * (m.stats pair.2).avg_doc_size *
        (m.stats pair.2).tuple_count
    if memory_needed ≤ memory_available then
      wsSecondPass m rest
        (updMap wsc pair.2 100, memory_available - memory_needed)
    else if 0 < memory_available then
      wsSecondPass m rest
        (updMap wsc pair.2
          (wsc pair.2 + memory_available / memory_needed * 100), buffer)
    else
      wsSecondPass m rest (wsc, buffer)

/-- Embeds `CostModel.estimateWorkingSets`: build the (percentage,
collection) pairs of the design collections, sort them descending, run the
first pass with the given capacity and the second pass with the resulting
buffer, and return the residency map. -/
def estimateWorkingSets (m : CostModel) (d : Design) (capacity : ℚ) :
    String → ℚ :=
  let sorting_pairs :=
    sortPairsDesc
      (d.getCollections.map (fun col => ((m.stats col).workload_percent, col)))
  let first := wsFirstPass m capacity sorting_pairs (fun _ => 0, 0, [])
  (wsSecondPass m first.2.2 (first.1, first.2.1)).1

/-- Embeds the query loop of `diskCost` for one session, threading the PRNG
position: a query on a collection absent from the design stops the session
scan (the source uses `break`); an insert contributes one page to both
accumulators; any other query contributes `max_pages` to the worst case and
either 0 (full residency, index hit, or a working-set hit of the random
draw) or `max_pages` to the cost.  The source also assigns a `multiplier`
of 2 for insert, update and delete queries but never applies it to the
accumulation, so the dead variable is omitted here. -/
def diskQueries (m : CostModel) (d : Design) (ws : String → ℚ) :
    List Query → ℚ × ℚ × ℕ → ℚ × ℚ × ℕ
  | [], acc => acc
  | q :: qs, (cost, worst_case, pos) =>
    if d.hasCollection q.collection = false then (cost, worst_case, pos)
    else if q.type = QueryType.insert then
      diskQueries m d ws qs (cost + 1, worst_case + 1, pos)
    else
      let max_pages := (m.stats q.collection).max_pages
      if 100 ≤ ws q.collection then
        diskQueries m d ws qs (cost, worst_case + max_pages, pos)
      else if d.hasIndex q.collection (q.predicates.map Prod.fst) then
        diskQueries m d ws qs (cost, worst_case + max_pages, pos)
      else
        let ws_hit := m.rg pos % 100 + 1
        if (ws_hit : ℚ) ≤ ws q.collection then
          diskQueries m d ws qs (cost, worst_case + max_pages, pos + 1)
        else
          diskQueries m d ws qs (cost + max_pages, worst_case + max_pages,
            pos + 1)

/-- Embeds `CostModel.diskCost` from a PRNG position: the sentinel
10000000000000 when the estimated index memory exceeds `max_memory`,
otherwise the accumulated `cost / worst_case` over the workload (0 when the
worst case is 0), together with the PRNG position after the scan. -/
def diskCost (m : CostModel) (d : Design) (pos : ℕ) : ℚ × ℕ :=
  let index_memory := getIndexSize m d
  if m.max_memory < index_memory then (10000000000000, pos)
  else
    let ws := estimateWorkingSets m d (m.max_memory - index_memory)
    let acc :=
      m.workload.foldl (fun a s => diskQueries m d ws s.queries a) (0, 0, pos)
    (if acc.2.1 = 0 then 0 else acc.1 / acc.2.1, acc.2.2)

/-- Embeds the segmentation loop of `skewCost`: a session whose end time
exceeds the running threshold closes the current segment and advances the
threshold by one offset; every session joins the current segment; the last
segment is appended when the sessions are exhausted. -/
def buildSegments (offset : ℚ) :
    List Session → ℚ → List Session → List (List Session)
  | [], _, wl_seg => [wl_seg]
  | s :: rest, timer, wl_seg =>
    if timer < s.endTime then
      wl_seg :: buildSegments offset rest (timer + offset) [s]
    else
      buildSegments offset rest timer (wl_seg ++ [s])

/-- Embeds `CostModel.skewCost`: 0 for an empty workload; otherwise the
workload is cut into segments of width `(end - start) / skew_segments`, each
segment is priced by `partialNetworkCost`, and the result is the query-count
weighted average of `1 - segment cost` (0 when no query was counted).  The
offset division is unguarded in the source, which raises on a zero
`skew_segments`; the embedding uses the total rational division (offset 0)
there, and no claim depends on that corner. -/
def skewCost (m : CostModel) (d : Design) : ℚ :=
  match m.workload with
  | [] => 0
  | s0 :: rest =>
    let startT := s0.startTime
    let endT := ((s0 :: rest).getLastD s0).endTime
    let offset := (endT - startT) / (m.skew_segments : ℚ)
    let segments := buildSegments offset (s0 :: rest) (startT + offset) []
    let segment_costs := segments.map (segNetworkCost m d)
    let sum_intervals :=
      (segment_costs.map (fun sc => (1 - sc.1) * (sc.2 : ℚ))).sum
    let sum_of_query_counts :=
      (segment_costs.map (fun sc => (sc.2 : ℚ))).sum
    if sum_of_query_counts = 0 then 0
    else sum_intervals / sum_of_query_counts

/-- Embeds `CostModel.overallCost` from a PRNG position: the weighted sum of
the three sub-costs divided by the weight sum, with `none` for the
`ZeroDivisionError` the source raises when the weights sum to 0; the second
component is the PRNG position after the disk-cost scan. -/
def overallCost (m : CostModel) (d : Design) (pos : ℕ) : Option ℚ × ℕ :=
  let net := networkCost m d
  let disk := diskCost m d pos
  let skew := skewCost m d
  let wsum := m.weight_network + m.weight_disk + m.weight_skew
  (if wsum = 0 then none
   else some ((m.weight_network * net + m.weight_disk * disk.1 +
     m.weight_skew * skew) / wsum),
   disk.2)

/-! Concrete catalogs, designs and cost-model instances used to evaluate the
embedded functions on explicit inputs. -/

/-- Statistics with one uniform collection profile: footprint 60 KB, one page
per scan, full workload share, selectivity 1 everywhere. -/
def statsUniform : String → CollStats := fun _ =>
  { tuple_count := 60, avg_doc_size := 1, workload_percent := 1,
    max_pages := 1, selectivity := fun _ => 1 }

/-- A design containing only collection A, kept as its own root, with no
shard key, no secondary index. -/
def designA : Design :=
  { getCollections := ["A"]
    hasCollection := fun c => c == "A"
    getParentCollection := fun c => some c
    inShardKeyPattern := fun _ _ => false
    hasIndex := fun _ _ => false
    getIndexesForCollection := fun _ => [] }

/-- Configuration giving all weight to the disk cost, one node, and a memory
budget of exactly 100 KB after the megabyte conversion. -/
def configDisk : Config :=
  { weight_network := 0, weight_disk := 1, weight_skew := 0,
    nodes := 1, max_memory := 100 / 1048576, address_size := 4,
    skew_intervals := 2 }

/-- A select on collection A with no predicates. -/
def selectA : Query :=
  { collection := "A", type := QueryType.select, predicates := [] }

/-- One session holding just `selectA`. -/
def sessA : Session := { queries := [selectA], startTime := 0, endTime := 1 }

/-- An abstracted PRNG stream whose first draw maps to 1 and whose later
draws map to 100 under `randint(1, 100)`. -/
def streamLowHigh : ℕ → ℕ := fun n => if n = 0 then 0 else 99

/-- Cost model over the one-query workload: its collection A is 67 percent
resident, so the disk cost of the select is decided by the PRNG draw. -/
def modelDraw : CostModel := mkCostModel [sessA] configDisk statsUniform streamLowHigh

/-- The same cost model over an empty workload: no PRNG draw ever happens. -/
def modelNoDraw : CostModel := mkCostModel [] configDisk statsUniform streamLowHigh

/-- Configuration whose network weight dwarfs its disk weight. -/
def configNetHeavy : Config :=
  { weight_network := 100, weight_disk := 1, weight_skew := 0,
    nodes := 1, max_memory := 1 / 1048576, address_size := 4,
    skew_intervals := 2 }

/-- Statistics of a 10 KB collection. -/
def statsSmall : String → CollStats := fun _ =>
  { tuple_count := 10, avg_doc_size := 1, workload_percent := 1,
    max_pages := 1, selectivity := fun _ => 1 }

/-- Cost model whose index memory estimate (10) exceeds its memory budget
(1): the disk sentinel fires on `designA`. -/
def modelSentinel : CostModel := mkCostModel [] configNetHeavy statsSmall streamLowHigh

/-- Balanced-weight configuration with four nodes, used as a witness of a
valid configuration. -/
def configBalanced : Config :=
  { weight_network := 1, weight_disk := 1, weight_skew := 1,
    nodes := 4, max_memory := 1, address_size := 4, skew_intervals := 2 }

/-- Cost model over an empty workload with the balanced configuration. -/
def modelBalanced : CostModel := mkCostModel [] configBalanced statsSmall streamLowHigh

/-- Statistics where field a has selectivity 1 and every other field
selectivity 1/10. -/
def statsShard : String → CollStats := fun _ =>
  { tuple_count := 1, avg_doc_size := 1, workload_percent := 1,
    max_pages := 1, selectivity := fun k => if k = "a" then 1 else 1 / 10 }

/-- Design sharding collection A on the single field a. -/
def designShardA : Design :=
  { getCollections := ["A"]
    hasCollection := fun c => c == "A"
    getParentCollection := fun c => some c
    inShardKeyPattern := fun c k => c == "A" && k == "a"
    hasIndex := fun _ _ => false
    getIndexesForCollection := fun _ => [] }

/-- Four-node network-only configuration. -/
def configFourNodes : Config :=
  { weight_network := 1, weight_disk := 0, weight_skew := 0,
    nodes := 4, max_memory := 1, address_size := 4, skew_intervals := 2 }

/-- A select whose predicate dictionary holds, in iteration order, a range
predicate on the shard-key field a and then an equality predicate on the
non-shard-key field b. -/
def selectRangeThenEq : Query :=
  { collection := "A", type := QueryType.select,
    predicates := [("a", "range"), ("b", "equality")] }

/-- Cost model for the shard-key routing example. -/
def modelShard : CostModel :=
  mkCostModel [⟨[selectRangeThenEq], 0, 1⟩] configFourNodes statsShard streamLowHigh

/-- Design embedding OrderLines under Orders. -/
def designEmbed : Design :=
  { getCollections := ["Orders", "OrderLines"]
    hasCollection := fun c => c == "Orders" || c == "OrderLines"
    getParentCollection := fun c =>
      if c == "OrderLines" then some "Orders" else some c
    inShardKeyPattern := fun _ _ => false
    hasIndex := fun _ _ => false
    getIndexesForCollection := fun _ => [] }

/-- A select on Orders with an equality predicate. -/
def selectOrders : Query :=
  { collection := "Orders", type := QueryType.select,
    predicates := [("id", "equality")] }

/-- A select on OrderLines with an equality predicate. -/
def selectOrderLines : Query :=
  { collection := "OrderLines", type := QueryType.select,
    predicates := [("oid", "equality")] }

/-- Cost model for the embedding-absorption session. -/
def modelEmbed : CostModel :=
  mkCostModel [⟨[selectOrders, selectOrderLines], 0, 1⟩] configFourNodes
    statsShard streamLowHigh

/-- Design containing only B, whose embedding parent A is absent from it. -/
def designAbsentParent : Design :=
  { getCollections := ["B"]
    hasCollection := fun c => c == "B"
    getParentCollection := fun c => if c == "B" then some "A" else some c
    inShardKeyPattern := fun _ _ => false
    hasIndex := fun _ _ => false
    getIndexesForCollection := fun _ => [] }

/-- A select on the absent collection A. -/
def selectAbsentA : Query :=
  { collection := "A", type := QueryType.select, predicates := [] }

/-- A select on B, whose parent is the absent A. -/
def selectB : Query :=
  { collection := "B", type := QueryType.select, predicates := [] }

/-- Cost model for the absent-parent absorption session. -/
def modelAbsent : CostModel :=
  mkCostModel [⟨[selectAbsentA, selectB], 0, 1⟩] configFourNodes statsShard
    streamLowHigh

/-- Statistics for the working-set redistribution example: collection A needs
80 KB and carries 2/5 of the workload, collection B needs 21 KB and carries
3/5 of it. -/
def statsWorkingSet : String → CollStats := fun c =>
  if c = "A" then
    { tuple_count := 10, avg_doc_size := 8, workload_percent := 2 / 5,
      max_pages := 1, selectivity := fun _ => 1 }
  else
    { tuple_count := 7, avg_doc_size := 3, workload_percent := 3 / 5,
      max_pages := 1, selectivity := fun _ => 1 }

/-- Design containing the collections A and B. -/
def designAB : Design :=
  { getCollections := ["A", "B"]
    hasCollection := fun c => c == "A" || c == "B"
    getParentCollection := fun c => some c
    inShardKeyPattern := fun _ _ => false
    hasIndex := fun _ _ => false
    getIndexesForCollection := fun _ => [] }

/-- Cost model for the working-set redistribution example (its workload is
irrelevant to `estimateWorkingSets`). -/
def modelWorkingSet : CostModel :=
  mkCostModel [] configDisk statsWorkingSet streamLowHigh

/-! Helper lemmas about the embedded functions. -/

/-- A predicate preserved by every step of a left fold holds of its value. -/
theorem foldl_inv {α β : Type} {P : β → Prop} (f : β → α → β)
    (hstep : ∀ b a, P b → P (f b a)) :
    ∀ (l : List α) (b : β), P b → P (l.foldl f b) := by
  intro l
  induction l with
  | nil => intro b hb; exact hb
  | cons a t ih => intro b hb; exact ih (f b a) (hstep b a hb)

/-- A left fold that only adds turns into the initial value plus a sum. -/
theorem foldl_add_sum {α : Type} (g : α → ℚ) :
    ∀ (l : List α) (init : ℚ),
      l.foldl (fun acc x => acc + g x) init = init + (l.map g).sum := by
  intro l
  induction l with
  | nil => intro init; simp
  | cons a t ih => intro init; simp [ih]; ring

/-- The invariant of the accumulators of `partialNetworkCost`: the result is
nonnegative, bounded by the worst case, and the worst case is exactly
`nodes * query_count`. -/
def NetInv (m : CostModel) (acc : NetAcc) : Prop :=
  0 ≤ acc.result ∧ acc.result ≤ acc.worst_case ∧
    acc.worst_case = (m.nodes : ℚ) * (acc.query_count : ℚ)

/-- The routing estimate of `guessNodes` lies between 0 and `nodes` whenever
the selectivity of the field lies in [0, 1]. -/
theorem guessNodes_bounds (m : CostModel) (d : Design) (c k : String)
    (h0 : 0 ≤ (m.stats c).selectivity k) (h1 : (m.stats c).selectivity k ≤ 1) :
    0 ≤ guessNodes m d c k ∧ guessNodes m d c k ≤ (m.nodes : ℚ) := by
  unfold guessNodes
  constructor
  · have hcl : (0 : ℤ) ≤ ⌈(m.stats c).selectivity k * (m.nodes : ℚ)⌉ :=
      Int.ceil_nonneg (mul_nonneg h0 (by positivity))
    exact_mod_cast hcl
  · have hle : (m.stats c).selectivity k * (m.nodes : ℚ) ≤
        ((m.nodes : ℤ) : ℚ) := by
      push_cast
      nlinarith [(Nat.cast_nonneg m.nodes : (0 : ℚ) ≤ (m.nodes : ℚ))]
    have hcl : ⌈(m.stats c).selectivity k * (m.nodes : ℚ)⌉ ≤ (m.nodes : ℤ) :=
      Int.ceil_le.mpr hle
    exact_mod_cast hcl

/-- Every processed query adds between 0 and `nodes` to the result. -/
theorem queryNetResult_bounds (m : CostModel) (d : Design) (q : Query)
    (hn : 1 ≤ m.nodes)
    (hsel : ∀ c k, 0 ≤ (m.stats c).selectivity k ∧
      (m.stats c).selectivity k ≤ 1) :
    0 ≤ queryNetResult m d q ∧ queryNetResult m d q ≤ (m.nodes : ℚ) := by
  have hn' : (1 : ℚ) ≤ (m.nodes : ℚ) := by exact_mod_cast hn
  have hn0 : (0 : ℚ) ≤ (m.nodes : ℚ) := by positivity
  simp only [queryNetResult]
  split
  · exact ⟨by norm_num, hn'⟩
  · split
    · split
      · split
        · exact ⟨le_refl 0, hn0⟩
        · exact guessNodes_bounds m d q.collection _ (hsel _ _).1 (hsel _ _).2
      · exact ⟨hn0, le_refl _⟩
    · exact ⟨hn0, le_refl _⟩

/-- One query-loop step of `partialNetworkCost` preserves the accumulator
invariant. -/
theorem netQueryStep_inv (m : CostModel) (d : Design)
    (hn : 1 ≤ m.nodes)
    (hsel : ∀ c k, 0 ≤ (m.stats c).selectivity k ∧
      (m.stats c).selectivity k ≤ 1)
    (st : NetAcc × Option Query) (q : Query) (h : NetInv m st.1) :
    NetInv m (netQueryStep m d st q).1 := by
  obtain ⟨h0, h1, h2⟩ := h
  have hq := queryNetResult_bounds m d q hn hsel
  simp only [netQueryStep, NetInv]
  split
  · split
    · refine ⟨add_nonneg h0 hq.1, add_le_add h1 hq.2, ?_⟩
      push_cast
      rw [h2]; ring
    · exact ⟨h0, h1, h2⟩
  · exact ⟨h0, h1, h2⟩

/-- The accumulator of `partialNetworkCost` satisfies the invariant on every
workload segment. -/
theorem netAccOf_inv (m : CostModel) (d : Design) (seg : List Session)
    (hn : 1 ≤ m.nodes)
    (hsel : ∀ c k, 0 ≤ (m.stats c).selectivity k ∧
      (m.stats c).selectivity k ≤ 1) :
    NetInv m (netAccOf m d seg) := by
  unfold netAccOf
  apply foldl_inv (netSession m d) ?_ seg ⟨0, 0, 0⟩ ?_
  · intro acc s hacc
    unfold netSession
    exact @foldl_inv Query (NetAcc × Option Query)
      (fun st => NetInv m st.1) (netQueryStep m d)
      (fun st q h => netQueryStep_inv m d hn hsel st q h)
      s.queries (acc, none) hacc
  · exact ⟨le_refl 0, le_refl 0, by norm_num⟩

/-- The normalized cost returned by `partialNetworkCost` lies in [0, 1]. -/
theorem segNetworkCost_bounds (m : CostModel) (d : Design)
    (seg : List Session) (hn : 1 ≤ m.nodes)
    (hsel : ∀ c k, 0 ≤ (m.stats c).selectivity k ∧
      (m.stats c).selectivity k ≤ 1) :
    0 ≤ (segNetworkCost m d seg).1 ∧ (segNetworkCost m d seg).1 ≤ 1 := by
  obtain ⟨h0, h1, h2⟩ := netAccOf_inv m d seg hn hsel
  simp only [segNetworkCost]
  split
  · exact ⟨le_refl 0, by norm_num⟩
  · rename_i hw
    have hwpos : 0 < (netAccOf m d seg).worst_case :=
      lt_of_le_of_ne (le_trans h0 h1) (Ne.symm hw)
    exact ⟨div_nonneg h0 (le_of_lt hwpos), (div_le_one hwpos).mpr h1⟩

/-- The query-count weighted average of `1 - cost` over a cost list lies in
[0, 1] whenever every cost does. -/
theorem skewAverage_bounds (costs : List (ℚ × ℕ))
    (h : ∀ p ∈ costs, 0 ≤ p.1 ∧ p.1 ≤ 1) :
    0 ≤ (if (costs.map (fun sc => (sc.2 : ℚ))).sum = 0 then 0
      else (costs.map (fun sc => (1 - sc.1) * (sc.2 : ℚ))).sum /
        (costs.map (fun sc => (sc.2 : ℚ))).sum) ∧
    (if (costs.map (fun sc => (sc.2 : ℚ))).sum = 0 then 0
      else (costs.map (fun sc => (1 - sc.1) * (sc.2 : ℚ))).sum /
        (costs.map (fun sc => (sc.2 : ℚ))).sum) ≤ 1 := by
  have hden0 : 0 ≤ (costs.map (fun sc => (sc.2 : ℚ))).sum := by
    apply List.sum_nonneg
    intro x hx
    obtain ⟨p, _, rfl⟩ := List.mem_map.mp hx
    positivity
  have hnum0 : 0 ≤ (costs.map (fun sc => (1 - sc.1) * (sc.2 : ℚ))).sum := by
    apply List.sum_nonneg
    intro x hx
    obtain ⟨p, hp, rfl⟩ := List.mem_map.mp hx
    have hc := h p hp
    have : (0 : ℚ) ≤ (p.2 : ℚ) := by positivity
    nlinarith
  have hle : (costs.map (fun sc => (1 - sc.1) * (sc.2 : ℚ))).sum ≤
      (costs.map (fun sc => (sc.2 : ℚ))).sum := by
    apply List.sum_le_sum
    intro p hp
    have hc := h p hp
    have : (0 : ℚ) ≤ (p.2 : ℚ) := by positivity
    nlinarith
  constructor
  · split
    · exact le_refl 0
    · exact div_nonneg hnum0 hden0
  · split
    · norm_num
    · rename_i hne
      exact (div_le_one (lt_of_le_of_ne hden0 (Ne.symm hne))).mpr hle

/-- The skew cost lies in [0, 1]. -/
theorem skewCost_bounds (m : CostModel) (d : Design) (hn : 1 ≤ m.nodes)
    (hsel : ∀ c k, 0 ≤ (m.stats c).selectivity k ∧
      (m.stats c).selectivity k ≤ 1) :
    0 ≤ skewCost m d ∧ skewCost m d ≤ 1 := by
  unfold skewCost
  cases hwl : m.workload with
  | nil => norm_num
  | cons s0 rest =>
    dsimp only
    apply skewAverage_bounds
    intro p hp
    obtain ⟨seg, _, rfl⟩ := List.mem_map.mp hp
    exact segNetworkCost_bounds m d seg hn hsel

/-- One session scan of `diskCost` preserves nonnegativity of the cost and
its bound by the worst case. -/
theorem diskQueries_inv (m : CostModel) (d : Design) (ws : String → ℚ)
    (hmp : ∀ c, 0 ≤ (m.stats c).max_pages) :
    ∀ (qs : List Query) (acc : ℚ × ℚ × ℕ),
      0 ≤ acc.1 ∧ acc.1 ≤ acc.2.1 →
      0 ≤ (diskQueries m d ws qs acc).1 ∧
        (diskQueries m d ws qs acc).1 ≤ (diskQueries m d ws qs acc).2.1 := by
  intro qs
  induction qs with
  | nil => intro acc h; exact h
  | cons q rest ih =>
    intro acc h
    obtain ⟨h0, h1⟩ := h
    have hmpq := hmp q.collection
    rcases acc with ⟨cost, worst_case, pos⟩
    dsimp only at h0 h1
    simp only [diskQueries]
    split
    · exact ⟨h0, h1⟩
    · split
      · exact ih _ ⟨by dsimp only; linarith, by dsimp only; linarith⟩
      · split
        · exact ih _ ⟨by dsimp only; linarith, by dsimp only; linarith⟩
        · split
          · exact ih _ ⟨by dsimp only; linarith, by dsimp only; linarith⟩
          · split
            · exact ih _ ⟨by dsimp only; linarith, by dsimp only; linarith⟩
            · exact ih _ ⟨by dsimp only; linarith, by dsimp only; linarith⟩

/-- When the index-memory sentinel does not fire, the disk cost lies in
[0, 1]; its value never changes the PRNG stream itself, only the position. -/
theorem diskCost_bounds (m : CostModel) (d : Design) (pos : ℕ)
    (hmp : ∀ c, 0 ≤ (m.stats c).max_pages)
    (hfit : getIndexSize m d ≤ m.max_memory) :
    0 ≤ (diskCost m d pos).1 ∧ (diskCost m d pos).1 ≤ 1 := by
  simp only [diskCost]
  rw [if_neg (by exact not_lt.mpr hfit)]
  have hacc := foldl_inv
    (fun a s => diskQueries m d
      (estimateWorkingSets m d (m.max_memory - getIndexSize m d)) s.queries a)
    (fun acc s hp => diskQueries_inv m d _ hmp s.queries acc hp)
    m.workload (0, 0, pos) ⟨le_refl 0, le_refl 0⟩
  set acc := m.workload.foldl
    (fun a s => diskQueries m d
      (estimateWorkingSets m d (m.max_memory - getIndexSize m d)) s.queries a)
    (0, 0, pos) with haccdef
  obtain ⟨h0, h1⟩ := hacc
  dsimp only
  split
  · exact ⟨le_refl 0, by norm_num⟩
  · rename_i hw
    have hwpos : 0 < acc.2.1 := lt_of_le_of_ne (le_trans h0 h1) (Ne.symm hw)
    exact ⟨div_nonneg h0 (le_of_lt hwpos), (div_le_one hwpos).mpr h1⟩

/-- The estimated index memory equals the sum, over the design collections,
of the primary footprint plus the per-index entries. -/
theorem getIndexSize_eq_sum (m : CostModel) (d : Design) :
    getIndexSize m d =
      (d.getCollections.map (fun col =>
        (m.stats col).tuple_count * (m.stats col).avg_doc_size +
        ((d.getIndexesForCollection col).map (fun index =>
          (m.stats col).tuple_count * m.address_size *
            (index.length : ℚ))).sum)).sum := by
  unfold getIndexSize
  have hstep : ∀ (l : List String) (init : ℚ),
      l.foldl (fun memory col =>
        (d.getIndexesForCollection col).foldl
          (fun mem index =>
            mem + (m.stats col).tuple_count * m.address_size *
              (index.length : ℚ))
          (memory +
            (m.stats col).tuple_count * (m.stats col).avg_doc_size)) init =
      init + (l.map (fun col =>
        (m.stats col).tuple_count * (m.stats col).avg_doc_size +
        ((d.getIndexesForCollection col).map (fun index =>
          (m.stats col).tuple_count * m.address_size *
            (index.length : ℚ))).sum)).sum := by
    intro l
    induction l with
    | nil => intro init; simp
    | cons c t ih =>
      intro init
      simp only [List.foldl, List.map, List.sum_cons]
      rw [foldl_add_sum, ih]
      ring
  rw [hstep]
  norm_num

/-- The default value of `getLastD` is irrelevant on a non-empty list. -/
theorem getLastD_irrel {α : Type} :
    ∀ (l : List α), l ≠ [] → ∀ (a b : α), l.getLastD a = l.getLastD b := by
  intro l hne a b
  rcases l with _ | ⟨x, rest⟩
  · exact absurd rfl hne
  · simp only [List.getLastD_cons]

/-- The last element of the keys of a pair list is the key of its last
element. -/
theorem getLastD_map_fst {α β : Type} :
    ∀ (ps : List (α × β)), ps ≠ [] → ∀ (x : α) (y : α × β),
      (ps.map Prod.fst).getLastD x = (ps.getLastD y).1 := by
  intro ps
  induction ps with
  | nil => intro hne; exact absurd rfl hne
  | cons kv rest ih =>
    intro _ x y
    rcases rest with _ | ⟨kw, t⟩
    · rfl
    · simp only [List.map_cons, List.getLastD_cons]
      have := ih (List.cons_ne_nil kw t) kv.1 kv
      simp only [List.map_cons, List.getLastD_cons] at this
      exact this

/-- With no predicate field in the shard key, the scan state keeps its flag
and kind and ends on the last key iterated. -/
theorem scanPreds_nomatch (d : Design) (c : String) :
    ∀ (ps : List (String × String)) (scan : Bool) (qt : Option String)
      (k0 : String),
      ps.filter (fun kv => d.inShardKeyPattern c kv.1) = [] →
      scanPreds d c ps (scan, qt, k0) =
        (scan, qt, (ps.map Prod.fst).getLastD k0) := by
  intro ps
  induction ps with
  | nil => intro scan qt k0 _; rfl
  | cons kv rest ih =>
    intro scan qt k0 h
    rw [List.filter_cons] at h
    by_cases hkv : d.inShardKeyPattern c kv.1
    · rw [if_pos (by exact_mod_cast hkv)] at h
      exact absurd h (List.cons_ne_nil kv _)
    · rw [if_neg (by exact_mod_cast hkv)] at h
      simp only [scanPreds, if_neg hkv]
      rw [ih scan qt kv.1 h]
      simp only [List.map_cons, List.getLastD_cons]

/-- With at least one predicate field in the shard key, the scan clears the
flag, records the kind of the last matching field, and ends on the last key
iterated. -/
theorem scanPreds_match (d : Design) (c : String) :
    ∀ (ps : List (String × String)) (scan : Bool) (qt : Option String)
      (k0 : String),
      ps.filter (fun kv => d.inShardKeyPattern c kv.1) ≠ [] →
      scanPreds d c ps (scan, qt, k0) =
        (false,
         some ((ps.filter (fun kv =>
           d.inShardKeyPattern c kv.1)).getLastD ("", "")).2,
         (ps.map Prod.fst).getLastD k0) := by
  intro ps
  induction ps with
  | nil => intro scan qt k0 h; exact absurd rfl h
  | cons kv rest ih =>
    intro scan qt k0 h
    by_cases hkv : d.inShardKeyPattern c kv.1
    · simp only [scanPreds, if_pos hkv]
      rw [List.filter_cons, if_pos (by exact_mod_cast hkv)]
      by_cases hrest :
          rest.filter (fun kv => d.inShardKeyPattern c kv.1) = []
      · rw [scanPreds_nomatch d c rest false (some kv.2) kv.1 hrest]
        rw [hrest]
        simp only [List.map_cons, List.getLastD_cons, List.getLastD_nil]
      · rw [ih false (some kv.2) kv.1 hrest]
        simp only [List.map_cons, List.getLastD_cons]
        rw [getLastD_irrel _ hrest kv ("", "")]
    · simp only [scanPreds, if_neg hkv]
      rw [List.filter_cons, if_neg (by exact_mod_cast hkv)] at h ⊢
      rw [ih scan qt kv.1 h]
      simp only [List.map_cons, List.getLastD_cons]

/-- The worst case accumulated by `partialNetworkCost` is always exactly
`nodes * query_count`, with no hypotheses on the model. -/
theorem netAccOf_worst_eq (m : CostModel) (d : Design) (seg : List Session) :
    (netAccOf m d seg).worst_case =
      (m.nodes : ℚ) * ((netAccOf m d seg).query_count : ℚ) := by
  unfold netAccOf
  apply @foldl_inv Session NetAcc
    (fun acc => acc.worst_case = (m.nodes : ℚ) * (acc.query_count : ℚ))
    (netSession m d) ?_ seg ⟨0, 0, 0⟩ ?_
  · intro acc s hacc
    unfold netSession
    apply @foldl_inv Query (NetAcc × Option Query)
      (fun st => st.1.worst_case = (m.nodes : ℚ) * (st.1.query_count : ℚ))
      (netQueryStep m d) ?_ s.queries (acc, none) hacc
    intro st q h
    simp only [netQueryStep]
    split
    · split
      · dsimp only
        push_cast
        rw [h]; ring
      · exact h
    · exact h
  · norm_num

/-! The claims. -/

/-- C5: for every design (and PRNG position), `overallCost` equals the
weighted sum of the network, disk and skew costs divided by the weight sum,
whenever that sum is nonzero. -/
theorem c5_overall_cost_formula (m : CostModel) (d : Design) (pos : ℕ)
    (hw : m.weight_network + m.weight_disk + m.weight_skew ≠ 0) :
    (overallCost m d pos).1 =
      some ((m.weight_network * networkCost m d +
        m.weight_disk * (diskCost m d pos).1 +
        m.weight_skew * skewCost m d) /
        (m.weight_network + m.weight_disk + m.weight_skew)) := by
  simp only [overallCost, if_neg hw]

/-- C5 witness: the formula instantiated on the balanced model. -/
theorem c5_overall_cost_formula_witness :
    (overallCost modelBalanced designA 0).1 =
      some ((modelBalanced.weight_network * networkCost modelBalanced designA +
        modelBalanced.weight_disk * (diskCost modelBalanced designA 0).1 +
        modelBalanced.weight_skew * skewCost modelBalanced designA) /
        (modelBalanced.weight_network + modelBalanced.weight_disk +
          modelBalanced.weight_skew)) :=
  c5_overall_cost_formula modelBalanced designA 0
    (by norm_num [modelBalanced, mkCostModel, configBalanced])

/-- C10: the final division of `overallCost` is total exactly under the
precondition that the three weights do not sum to zero; a zero weight sum
makes the call fail (the embedded `none`, a `ZeroDivisionError` in the
source) instead of returning a value. -/
theorem c10_weight_sum_division (m : CostModel) (d : Design) (pos : ℕ) :
    (m.weight_network + m.weight_disk + m.weight_skew = 0 →
      (overallCost m d pos).1 = none) ∧
    (m.weight_network + m.weight_disk + m.weight_skew ≠ 0 →
      ∃ v, (overallCost m d pos).1 = some v) := by
  constructor
  · intro h
    simp only [overallCost, if_pos h]
  · intro h
    refine ⟨(m.weight_network * networkCost m d +
      m.weight_disk * (diskCost m d pos).1 + m.weight_skew * skewCost m d) /
      (m.weight_network + m.weight_disk + m.weight_skew), ?_⟩
    simp only [overallCost, if_neg h]

/-- C8: under the precondition of at least one node, a zero accumulated
worst case forces `partialNetworkCost` to return exactly the pair (0, 0):
the query count is zero as well, because both counters are incremented
together. -/
theorem c8_zero_worst_case (m : CostModel) (d : Design) (seg : List Session)
    (hn : 1 ≤ m.nodes) (hw : (netAccOf m d seg).worst_case = 0) :
    segNetworkCost m d seg = (0, 0) := by
  have heq := netAccOf_worst_eq m d seg
  rw [hw] at heq
  have hn0 : (m.nodes : ℚ) ≠ 0 := by
    have : (1 : ℚ) ≤ (m.nodes : ℚ) := by exact_mod_cast hn
    linarith
  have hqc : ((netAccOf m d seg).query_count : ℚ) = 0 := by
    rcases mul_eq_zero.mp heq.symm with h | h
    · exact absurd h hn0
    · exact h
  have hqc' : (netAccOf m d seg).query_count = 0 := by exact_mod_cast hqc
  simp only [segNetworkCost, if_pos hw, hqc']

/-- C8 witness: the empty segment under the one-node model. -/
theorem c8_zero_worst_case_witness :
    segNetworkCost modelDraw designA [] = (0, 0) :=
  c8_zero_worst_case modelDraw designA [] (by decide) (by decide)

/-- C1 amended: `overallCost` is a pure function of the instance state and
the PRNG position, so whenever a call leaves the PRNG position unchanged the
next call returns the same value; the source seeds the PRNG in the
constructor, not per invocation, so in general successive calls resume the
stream where the previous call stopped. -/
theorem c1_determinism_amended (m : CostModel) (d : Design) (pos : ℕ)
    (h : (overallCost m d pos).2 = pos) :
    (overallCost m d (overallCost m d pos).2).1 = (overallCost m d pos).1 := by
  rw [h]

/-- C1 counterexample: on `modelDraw`, two successive `overallCost` calls
with the same design return different values (0 then 1), because the first
call advances the PRNG position and the seed is not reapplied. -/
theorem c1_determinism_counterexample :
    (overallCost modelDraw designA 0).1 ≠
      (overallCost modelDraw designA (overallCost modelDraw designA 0).2).1 := by
  have hc : (⌈(200 / 3 : ℚ)⌉ : ℤ) = 67 := by norm_num [Int.ceil_eq_iff]
  have hq : QueryType.select ≠ QueryType.insert := by decide
  norm_num [overallCost, networkCost, segNetworkCost, netAccOf, netSession,
    netQueryStep, processQ, queryNetResult, scanPreds, diskCost, getIndexSize,
    estimateWorkingSets, sortPairsDesc, insertDesc, pairLtB, wsFirstPass,
    wsSecondPass, updMap, diskQueries, skewCost, buildSegments, modelDraw,
    mkCostModel, configDisk, statsUniform, designA, sessA, selectA,
    streamLowHigh, hc, hq]

/-- C1 witness: on the model with an empty workload no PRNG draw happens, the
position stays at 0, and successive calls agree. -/
theorem c1_determinism_witness :
    (overallCost modelNoDraw designA 0).2 = 0 ∧
    (overallCost modelNoDraw designA
      (overallCost modelNoDraw designA 0).2).1 =
      (overallCost modelNoDraw designA 0).1 := by
  have hpos : (overallCost modelNoDraw designA 0).2 = 0 := by
    norm_num [overallCost, diskCost, getIndexSize, modelNoDraw, mkCostModel,
      configDisk, statsUniform, designA]
  exact ⟨hpos, c1_determinism_amended modelNoDraw designA 0 hpos⟩

/-- C9: in the query loop of `partialNetworkCost`, `previous_query` is set
to the current query at the end of every iteration, whether or not the query
was counted; consequently a select on a collection absent from the design
can absorb the immediately following select on a collection whose embedding
parent is that absent collection, and the session
[select A (absent), select B with parent B = A] counts no query at all. -/
theorem c9_previous_query_always_updated :
    (∀ (m : CostModel) (d : Design) (st : NetAcc × Option Query) (q : Query),
      (netQueryStep m d st q).2 = some q) ∧
    segNetworkCost modelAbsent designAbsentParent
      [⟨[selectAbsentA, selectB], 0, 1⟩] = (0, 0) := by
  constructor
  · intro m d st q
    rfl
  · have hq : QueryType.select ≠ QueryType.insert := by decide
    have hab : ("A" : String) ≠ "B" := by decide
    have hba : ("B" : String) ≠ "A" := by decide
    norm_num [segNetworkCost, netAccOf, netSession, netQueryStep, processQ,
      queryNetResult, scanPreds, modelAbsent, mkCostModel, configFourNodes,
      statsShard, designAbsentParent, selectAbsentA, selectB, hq, hab, hba]

/-- The `process` flag of `partialNetworkCost` is cleared exactly when a
previous query exists, both queries are selects, the previous collection is
the parent of the current one, and that parent differs from the current
collection. -/
theorem processQ_eq_false_iff (d : Design) (prev : Option Query) (q : Query) :
    processQ d prev q = false ↔
      ∃ pq, prev = some pq ∧ pq.type = QueryType.select ∧
        q.type = QueryType.select ∧
        d.getParentCollection q.collection = some pq.collection ∧
        pq.collection ≠ q.collection := by
  cases prev with
  | none =>
    simp [processQ]
  | some pq =>
    simp only [processQ, Bool.or_eq_false_iff, decide_eq_false_iff_not,
      not_not, Option.some.injEq]
    constructor
    · rintro ⟨⟨⟨h1, h2⟩, h3⟩, h4⟩
      refine ⟨pq, rfl, h2, h3, h4, ?_⟩
      intro hcol
      rw [h4, hcol] at h1
      exact h1 rfl
    · rintro ⟨pq2, hpq, ht1, ht2, hpar, hne⟩
      cases hpq
      refine ⟨⟨⟨?_, ht1⟩, ht2⟩, hpar⟩
      rw [hpar]
      intro hcon
      exact hne (Option.some.injEq _ _ ▸ hcon)

/-- A processed query always changes the accumulator: the query count grows
by one. -/
theorem processed_acc_ne (acc : NetAcc) (x y : ℚ) :
    ({ worst_case := x, result := y,
       query_count := acc.query_count + 1 } : NetAcc) ≠ acc := by
  intro h
  have h2 := congrArg NetAcc.query_count h
  dsimp at h2
  omega

/-- C4: a query on a collection present in the design leaves all three
accumulators unchanged exactly when a previous query exists, both are
selects, the previous collection is the embedding parent of the current one
and that parent differs from the collection; on the session
[select Orders, select OrderLines] with parent OrderLines = Orders, only the
first query is processed and the query count is 1. -/
theorem c4_embedding_absorption :
    (∀ (m : CostModel) (d : Design) (acc : NetAcc) (prev : Option Query)
      (q : Query), d.hasCollection q.collection = true →
      ((netQueryStep m d (acc, prev) q).1 = acc ↔
        ∃ pq, prev = some pq ∧ pq.type = QueryType.select ∧
          q.type = QueryType.select ∧
          d.getParentCollection q.collection = some pq.collection ∧
          pq.collection ≠ q.collection)) ∧
    (segNetworkCost modelEmbed designEmbed
      [⟨[selectOrders, selectOrderLines], 0, 1⟩]).2 = 1 := by
  constructor
  · intro m d acc prev q hin
    rw [← processQ_eq_false_iff d prev q]
    simp only [netQueryStep, hin, if_true]
    cases hp : processQ d prev q
    · simp
    · simp only [if_pos rfl]
      constructor
      · intro h
        exact absurd h (processed_acc_ne acc _ _)
      · intro h
        exact absurd h (by simp)
  · have hq : QueryType.select ≠ QueryType.insert := by decide
    have h1 : ("Orders" : String) ≠ "OrderLines" := by decide
    have h2 : ("OrderLines" : String) ≠ "Orders" := by decide
    norm_num [segNetworkCost, netAccOf, netSession, netQueryStep, processQ,
      queryNetResult, scanPreds, modelEmbed, mkCostModel, configFourNodes,
      statsShard, designEmbed, selectOrders, selectOrderLines, hq, h1, h2]

/-- Modelled from the spec: the routing contribution the specification
describes for a targeted non-insert query — the LAST predicate field that
matches the shard key decides everything: kind equality contributes 0, any
other kind contributes the `guessNodes` ceiling computed on THAT matching
field. Written to be compared with the contribution the code computes. -/
def specRoutingContribution (m : CostModel) (d : Design) (q : Query) : ℚ :=
  let matching := q.predicates.filter
    (fun kv => d.inShardKeyPattern q.collection kv.1)
  let f := matching.getLastD ("", "")
  if f.2 = "equality" then 0 else guessNodes m d q.collection f.1

/-- C3 amended: for a processed non-insert query with at least one predicate
field in the shard key, the kind of the LAST MATCHING field decides between
0 (equality) and the `guessNodes` ceiling, but the ceiling is computed on
the LAST PREDICATE FIELD ITERATED, whether or not it is in the shard key
(the source reuses the loop variable `k` after the loop ends). -/
theorem c3_routing_amended (m : CostModel) (d : Design) (q : Query)
    (ht : q.type ≠ QueryType.insert)
    (hmatch : q.predicates.filter
      (fun kv => d.inShardKeyPattern q.collection kv.1) ≠ []) :
    queryNetResult m d q =
      if ((q.predicates.filter (fun kv =>
            d.inShardKeyPattern q.collection kv.1)).getLastD ("", "")).2 =
          "equality" then 0
      else guessNodes m d q.collection ((q.predicates.getLastD ("", "")).1) := by
  have hne : q.predicates ≠ [] := by
    intro h
    rw [h] at hmatch
    exact hmatch rfl
  have hlen : 0 < q.predicates.length := List.length_pos.mpr hne
  simp only [queryNetResult, if_neg ht, if_pos hlen]
  rw [scanPreds_match d q.collection q.predicates true none "" hmatch]
  simp only [Option.some.injEq, if_true]
  rw [getLastD_map_fst q.predicates hne "" ("", "")]

/-- C3 witness: the amended contribution evaluated on the range-then-equality
query; the matching field a has kind range, so the code charges the ceiling
for the last iterated field b. -/
theorem c3_routing_witness :
    queryNetResult modelShard designShardA selectRangeThenEq =
      if ((selectRangeThenEq.predicates.filter (fun kv =>
            designShardA.inShardKeyPattern selectRangeThenEq.collection
              kv.1)).getLastD ("", "")).2 = "equality" then 0
      else guessNodes modelShard designShardA selectRangeThenEq.collection
        ((selectRangeThenEq.predicates.getLastD ("", "")).1) :=
  c3_routing_amended modelShard designShardA selectRangeThenEq (by decide)
    (by decide)

/-- C3 counterexample: on the query with predicates
[(a, range), (b, equality)] and shard key {a}, the specified contribution is
ceil(selectivity a * nodes) = 4 but the code contributes
ceil(selectivity b * nodes) = 1: the kind comes from the last matching field
while the selectivity comes from the last iterated field. -/
theorem c3_routing_counterexample :
    selectRangeThenEq.type ≠ QueryType.insert ∧
    selectRangeThenEq.predicates.filter (fun kv =>
      designShardA.inShardKeyPattern selectRangeThenEq.collection kv.1) =
      [("a", "range")] ∧
    specRoutingContribution modelShard designShardA selectRangeThenEq = 4 ∧
    queryNetResult modelShard designShardA selectRangeThenEq = 1 ∧
    (segNetworkCost modelShard designShardA
      [⟨[selectRangeThenEq], 0, 1⟩]).1 = 1 / 4 ∧
    specRoutingContribution modelShard designShardA selectRangeThenEq ≠
      queryNetResult modelShard designShardA selectRangeThenEq := by
  have hc1 : (⌈(1 : ℚ) * 4⌉ : ℤ) = 4 := by norm_num
  have hc2 : (⌈(2 / 5 : ℚ)⌉ : ℤ) = 1 := by
    norm_num [Int.ceil_eq_iff]
  have hq : QueryType.select ≠ QueryType.insert := by decide
  have hra : ("range" : String) ≠ "equality" := by decide
  have hba : ("b" : String) ≠ "a" := by decide
  refine ⟨by decide, by decide, ?_, ?_, ?_, ?_⟩
  all_goals
    norm_num [specRoutingContribution, queryNetResult, scanPreds, guessNodes,
      segNetworkCost, netAccOf, netSession, netQueryStep, processQ,
      modelShard, mkCostModel, configFourNodes, statsShard, designShardA,
      selectRangeThenEq, hq, hra, hba, hc1, hc2]

/-- C6: for a model built by the constructor, `diskCost` returns the
sentinel 10^13 exactly when the estimated index memory — the sum over
design collections of `tuple_count * avg_doc_size` plus, per index,
`tuple_count * (address_size / 4) * |index|` — exceeds the configured
`max_memory * 1024 * 1024 * nodes`. -/
theorem c6_disk_sentinel (workload : List Session) (config : Config)
    (statistics : String → CollStats) (stream : ℕ → ℕ) (d : Design) (pos : ℕ)
    (hmp : ∀ c, 0 ≤ (statistics c).max_pages) :
    (diskCost (mkCostModel workload config statistics stream) d pos).1 =
        10000000000000 ↔
      config.max_memory * 1024 * 1024 * (config.nodes : ℚ) <
        (d.getCollections.map (fun col =>
          (statistics col).tuple_count * (statistics col).avg_doc_size +
          ((d.getIndexesForCollection col).map (fun index =>
            (statistics col).tuple_count * (config.address_size / 4) *
              (index.length : ℚ))).sum)).sum := by
  set m := mkCostModel workload config statistics stream with hm
  have hsum : getIndexSize m d =
      (d.getCollections.map (fun col =>
        (statistics col).tuple_count * (statistics col).avg_doc_size +
        ((d.getIndexesForCollection col).map (fun index =>
          (statistics col).tuple_count * (config.address_size / 4) *
            (index.length : ℚ))).sum)).sum := getIndexSize_eq_sum m d
  have hmem : m.max_memory =
      config.max_memory * 1024 * 1024 * (config.nodes : ℚ) := rfl
  rw [← hsum, ← hmem]
  constructor
  · intro h
    by_cases hs : m.max_memory < getIndexSize m d
    · exact hs
    · have hb := diskCost_bounds m d pos (fun c => hmp c) (not_lt.mp hs)
      rw [h] at hb
      norm_num at hb
  · intro hs
    simp only [diskCost, if_pos hs]

/-- C6 witness: the sentinel fires on the model whose 10 KB index estimate
exceeds its 1 KB budget. -/
theorem c6_disk_sentinel_witness :
    (diskCost (mkCostModel [] configNetHeavy statsSmall streamLowHigh)
      designA 0).1 = 10000000000000 :=
  (c6_disk_sentinel [] configNetHeavy statsSmall streamLowHigh designA 0
    (fun c => by norm_num [statsSmall])).mpr
    (by norm_num [configNetHeavy, statsSmall, designA])

/-- C7: on the two-collection example — A with footprint 80 and share 2/5,
B with footprint 21 and share 3/5, capacity 100 — the second redistribution
pass raises the residency of A to 147.5 percent: the returned map is not
bounded by 100, although the source itself documents the intent of a
percentage of the collection that fits in memory. -/
theorem c7_working_set_over_100 :
    estimateWorkingSets modelWorkingSet designAB 100 "A" = 295 / 2 ∧
    (100 : ℚ) < 295 / 2 := by
  have hc : (⌈(2 / 5 : ℚ) * 100⌉ : ℤ) = 40 := by norm_num
  have hab : ("A" : String) ≠ "B" := by decide
  have hba : ("B" : String) ≠ "A" := by decide
  constructor
  · norm_num [estimateWorkingSets, sortPairsDesc, insertDesc, pairLtB,
      wsFirstPass, wsSecondPass, updMap, modelWorkingSet, mkCostModel,
      configDisk, statsWorkingSet, designAB, hab, hba, hc]
  · norm_num

/-- C2 counterexample: on the sentinel-firing model whose network weight is
100 and disk weight 1, the overall cost is 10^13 / 101, which is below
10^12: a firing sentinel does not force the overall cost above 10^12. -/
theorem c2_range_counterexample :
    modelSentinel.max_memory < getIndexSize modelSentinel designA ∧
    (overallCost modelSentinel designA 0).1 = some (10 ^ 13 / 101) ∧
    ((10 : ℚ) ^ 13 / 101) < 10 ^ 12 := by
  refine ⟨?_, ?_, by norm_num⟩
  · norm_num [getIndexSize, modelSentinel, mkCostModel, configNetHeavy,
      statsSmall, designA]
  · norm_num [overallCost, networkCost, segNetworkCost, netAccOf, diskCost,
      getIndexSize, skewCost, modelSentinel, mkCostModel, configNetHeavy,
      statsSmall, designA]

/-- C2 amended: under a valid configuration — nonnegative weights with a
positive sum, at least one node, selectivities in [0, 1] and nonnegative
page counts — the overall cost lies in [0, 1] when the index-memory
sentinel does not fire; when it fires, the overall cost exceeds 10^12
provided the weight sum is below ten times the disk weight (the
counterexample shows the bound fails otherwise). -/
theorem c2_range_amended (m : CostModel) (d : Design) (pos : ℕ)
    (hwn : 0 ≤ m.weight_network) (hwd : 0 ≤ m.weight_disk)
    (hws : 0 ≤ m.weight_skew)
    (hsum : 0 < m.weight_network + m.weight_disk + m.weight_skew)
    (hn : 1 ≤ m.nodes)
    (hsel : ∀ c k, 0 ≤ (m.stats c).selectivity k ∧
      (m.stats c).selectivity k ≤ 1)
    (hmp : ∀ c, 0 ≤ (m.stats c).max_pages) :
    (getIndexSize m d ≤ m.max_memory →
      ∃ v, (overallCost m d pos).1 = some v ∧ 0 ≤ v ∧ v ≤ 1) ∧
    (m.max_memory < getIndexSize m d →
      m.weight_network + m.weight_disk + m.weight_skew <
        10 * m.weight_disk →
      ∃ v, (overallCost m d pos).1 = some v ∧ (10 : ℚ) ^ 12 < v) := by
  have hsumne : m.weight_network + m.weight_disk + m.weight_skew ≠ 0 :=
    ne_of_gt hsum
  have hnet : 0 ≤ networkCost m d ∧ networkCost m d ≤ 1 :=
    segNetworkCost_bounds m d m.workload hn hsel
  have hskew := skewCost_bounds m d hn hsel
  constructor
  · intro hfit
    have hdisk := diskCost_bounds m d pos hmp hfit
    refine ⟨(m.weight_network * networkCost m d +
      m.weight_disk * (diskCost m d pos).1 + m.weight_skew * skewCost m d) /
      (m.weight_network + m.weight_disk + m.weight_skew),
      by simp only [overallCost, if_neg hsumne], ?_, ?_⟩
    · apply div_nonneg _ (le_of_lt hsum)
      have := mul_nonneg hwn hnet.1
      have := mul_nonneg hwd hdisk.1
      have := mul_nonneg hws hskew.1
      linarith
    · rw [div_le_one hsum]
      have h1 : m.weight_network * networkCost m d ≤ m.weight_network :=
        mul_le_of_le_one_right hwn hnet.2
      have h2 : m.weight_disk * (diskCost m d pos).1 ≤ m.weight_disk :=
        mul_le_of_le_one_right hwd hdisk.2
      have h3 : m.weight_skew * skewCost m d ≤ m.weight_skew :=
        mul_le_of_le_one_right hws hskew.2
      linarith
  · intro hfire hw10
    have hdval : (diskCost m d pos).1 = 10000000000000 := by
      simp only [diskCost, if_pos hfire]
    refine ⟨(m.weight_network * networkCost m d +
      m.weight_disk * (diskCost m d pos).1 + m.weight_skew * skewCost m d) /
      (m.weight_network + m.weight_disk + m.weight_skew),
      by simp only [overallCost, if_neg hsumne], ?_⟩
    rw [lt_div_iff₀ hsum, hdval]
    have h1 : 0 ≤ m.weight_network * networkCost m d :=
      mul_nonneg hwn hnet.1
    have h3 : 0 ≤ m.weight_skew * skewCost m d :=
      mul_nonneg hws hskew.1
    nlinarith

/-- C2 witness: on the balanced four-node model the sentinel does not fire
and the overall cost lies in [0, 1]. -/
theorem c2_range_witness :
    ∃ v, (overallCost modelBalanced designA 0).1 = some v ∧
      0 ≤ v ∧ v ≤ 1 :=
  (c2_range_amended modelBalanced designA 0
    (by norm_num [modelBalanced, mkCostModel, configBalanced])
    (by norm_num [modelBalanced, mkCostModel, configBalanced])
    (by norm_num [modelBalanced, mkCostModel, configBalanced])
    (by norm_num [modelBalanced, mkCostModel, configBalanced])
    (by norm_num [modelBalanced, mkCostModel, configBalanced])
    (fun c k => by norm_num [modelBalanced, mkCostModel, statsSmall])
    (fun c => by norm_num [modelBalanced, mkCostModel, statsSmall])).1
    (by norm_num [getIndexSize, modelBalanced, mkCostModel, configBalanced,
      statsSmall, designA])
